import Mathlib

/-!
Verification development for the FRC event-calculator repository.

The Python sources are shallowly embedded here:

* `Constants.py` — `SeasonConstants` and its 2025/2026 instantiations become the
  `SeasonConsts` structure and the `season2025Constants` / `season2026Constants`
  values; the derived quantities (`openSlots`, `regionalSlots`, `weeklySlots`)
  are computed over `Int` with floor division.  The Python code computes the
  floors over IEEE doubles; for the concrete 2025/2026 constant tables the
  quotients are far from integer boundaries, so exact integer arithmetic gives
  the same values.
* `Team.py` / `src/frc_calculator/models/team.py` — per-event point tuples
  become the `RP` structure; `SeasonTeam.get_regional_points` and
  `SeasonTeam.get_auto_advancement_2025` are embedded over explicit per-team
  data (`SeasonTeamData`).  Where Python leaves a local variable unassigned and
  then uses it (an `UnboundLocalError`), the embedding returns `Except.error`.
* `Season.py` / `src/frc_calculator/services/season.py` —
  `Season.regional_pool_2025` becomes a state-passing function over a
  qualification-state map `Nat → QualState`.
* `Utils.py` / `src/frc_calculator/utils/math_utils.py` — `erfinv` is embedded
  over `ℚ`, parameterised by the external `math.erf` oracle; Python's float
  arithmetic is modelled by exact rational arithmetic.
* `src/frc_calculator/models/match.py` — `Match.result_query`,
  `Match.get_match_winloser` and `Event.get_winner_and_finalist` are embedded
  with Python's lexicographic list comparison, which coincides with Mathlib's
  `List.Lex` linear order on `List Int`.
-/

namespace FrcCalc

/-! ## Constants.py -/

/-- Embedding of `SeasonConstants` (class attributes used by the engine). -/
structure SeasonConsts where
  preQualified : List Nat
  declined : List Nat
  championshipSlots : Int
  prequalifiedCount : Int
  totalTeamCount : Int
  districtTeamCount : Int
  regionalError : Int
  regionalsCountPerWeek : List Int
  regionalsCount : Int
  ironBowl : Int
  weeksError : List Int

/-- `SeasonConstants.openSlots`. -/
def SeasonConsts.openSlots (c : SeasonConsts) : Int :=
  c.championshipSlots - c.prequalifiedCount

/-- `SeasonConstants.regionalTeamCount`. -/
def SeasonConsts.regionalTeamCount (c : SeasonConsts) : Int :=
  c.totalTeamCount - c.districtTeamCount

/-- `SeasonConstants.regionalSlots`:
`floor(openSlots * regionalTeamCount / totalTeamCount) + regionalError`.
Python floors a float quotient of two ints; here it is exact floor division. -/
def SeasonConsts.regionalSlots (c : SeasonConsts) : Int :=
  (c.openSlots * c.regionalTeamCount).fdiv c.totalTeamCount + c.regionalError

/-- `SeasonConstants.weeklySlots`: for each of the 5 slot weeks,
`floor(regionalSlots * regionalsCountPerWeek[i] / regionalsCount + weeksError[i])`.
Since `weeksError[i]` is an integer, the Python expression equals
`floor((regionalSlots * regionalsCountPerWeek[i] + weeksError[i] * regionalsCount)
/ regionalsCount)`, which is what is computed here. -/
def SeasonConsts.weeklySlots (c : SeasonConsts) : List Int :=
  (List.range 5).map fun i =>
    (c.regionalSlots * c.regionalsCountPerWeek.getD i 0
      + c.weeksError.getD i 0 * c.regionalsCount).fdiv c.regionalsCount

/-- `Season2025Constants`. -/
def season2025Constants : SeasonConsts where
  preQualified := [3132, 4403, 1538, 9432, 987, 2638, 3990, 2614, 5985, 2438,
    8159, 3478, 1902, 4613, 4522]
  declined := [8557, 3986, 5528, 1339, 7536, 1787, 7433, 3544, 10541, 10142,
    1493, 3166, 7021, 8169, 8777, 9523, 5655, 10002, 6483, 7050, 329, 5584]
  championshipSlots := 600
  prequalifiedCount := 32
  totalTeamCount := 3522
  districtTeamCount := 1670
  regionalError := -6
  regionalsCountPerWeek := [18, 15, 14, 10, 12]
  regionalsCount := 69
  ironBowl := 4
  weeksError := [-2, 4, 1, 0, 3]

/-- `Season2026Constants`. -/
def season2026Constants : SeasonConsts where
  preQualified := [5985, 2486, 4613, 1816, 1902]
  declined := []
  championshipSlots := 600
  prequalifiedCount := 9
  totalTeamCount := 3522
  districtTeamCount := 1670 + 289 + 69
  regionalError := -6
  regionalsCountPerWeek := [18, 15, 14, 10, 12]
  regionalsCount := 80
  ironBowl := 3
  weeksError := [0, 0, 0, 0, 0]

/-- `DefaultConstants`. -/
def defaultConstants : SeasonConsts where
  preQualified := []
  declined := []
  championshipSlots := 600
  prequalifiedCount := 32
  totalTeamCount := 3522
  districtTeamCount := 1670
  regionalError := -6
  regionalsCountPerWeek := [18, 15, 14, 10, 12]
  regionalsCount := 69
  ironBowl := 4
  weeksError := [0, 0, 0, 0, 0]

/-- `get_constants(season)`. -/
def get_constants (season : Int) : SeasonConsts :=
  if season = 2025 then season2025Constants
  else if season = 2026 then season2026Constants
  else defaultConstants

/-! ## Utils.py — `erfinv`

`erfinv` calls the external `math.erf`; the embedding takes that oracle as a
parameter and runs over exact rationals. -/

/-- One pass of the body of `erfinv`'s `for` loop, acting on the state
`(a, b, c)`: compute `c = (a + b) / 2` and shrink the bracket on the side
indicated by `erf c > x`. -/
def bisectBody (erf : ℚ → ℚ) (x : ℚ) (abc : ℚ × ℚ × ℚ) : ℚ × ℚ × ℚ :=
  let c := (abc.1 + abc.2.1) / 2
  if erf c > x then (abc.1, c, c) else (c, abc.2.1, c)

/-- `for _ in range(n)` around `bisectBody`. -/
def bisectRun (erf : ℚ → ℚ) (x : ℚ) (abc : ℚ × ℚ × ℚ) : Nat → ℚ × ℚ × ℚ
  | 0 => abc
  | n + 1 => bisectRun erf x (bisectBody erf x abc) n

/-- Embedding of `erfinv` (`Utils.py` lines 5–20 and
`utils/math_utils.py` lines 4–20).  The refactored source assigns `c = 0.0`
before the loop, so the state `(a, b, c)` starts at `(a, b, 0)`; `raise`
becomes `Except.error ()`. -/
def erfinv (erf : ℚ → ℚ) (x : ℚ) : Except Unit ℚ :=
  if x ≤ -1 ∨ x ≥ 1 then .error ()
  else if x = 0 then .ok 0
  else
    let a : ℚ := 0
    let b : ℚ := 4 * x
    let ab : ℚ × ℚ := if x < 0 then (b, a) else (a, b)
    .ok (bisectRun erf x (ab.1, ab.2, 0) 100).2.2

/-- One halving of the bracket `(a, b)`. -/
def bracketStep (erf : ℚ → ℚ) (x : ℚ) (ab : ℚ × ℚ) : ℚ × ℚ :=
  let c := (ab.1 + ab.2) / 2
  if erf c > x then (ab.1, c) else (c, ab.2)

/-- Specification-side view of the bisection: the bracket `(a, b)` after `n`
halving steps, starting from `[0, 4x]` (or `[4x, 0]` for negative `x`). -/
def bisectBracket (erf : ℚ → ℚ) (x : ℚ) (n : Nat) : ℚ × ℚ :=
  (bracketStep erf x)^[n] (if x < 0 then (4 * x, 0) else (0, 4 * x))

/-- The midpoint computed during the `n`-th loop pass (`n ≥ 1`): the midpoint
of the bracket after `n - 1` halving steps. -/
def nthMidpoint (erf : ℚ → ℚ) (x : ℚ) (n : Nat) : ℚ :=
  let ab := bisectBracket erf x (n - 1)
  (ab.1 + ab.2) / 2

/-! ## Team.py — per-event tuples, `SeasonTeam` aggregation, auto-advancement

`Team.regional_points_2025()` produces a 7-tuple
`(total, playoff, alliance, quals, best1, best2, best3)`; aggregation and the
allocator only consume that tuple, so the embedding takes the per-event tuples
as data (the output of the event-scoring pipeline). -/

/-- The 7-component regional-points tuple produced by
`Team.regional_points_2025`. -/
structure RP where
  total : Int
  playoff : Int
  alliance : Int
  quals : Int
  b1 : Int
  b2 : Int
  b3 : Int
deriving DecidableEq, Repr

/-- The tuple as the list Python sorts on. -/
def RP.toList (p : RP) : List Int :=
  [p.total, p.playoff, p.alliance, p.quals, p.b1, p.b2, p.b3]

/-- The rolling best-3 merge performed inside `get_regional_points`
(`Team.py` lines 331–332): concatenate the running triple with the event's
triple, sort ascending (Python `sorted`), and keep entries `5, 4, 3`
(the slice `[5:2:-1]`). -/
def mergeBest3 (x y : Int × Int × Int) : Int × Int × Int :=
  let s := List.insertionSort (fun a b => a ≤ b)
    [x.1, x.2.1, x.2.2, y.1, y.2.1, y.2.2]
  (s.getD 5 0, s.getD 4 0, s.getD 3 0)

/-- `round(t * 0.6 + 14)` for an integer `t`, the single-event projection bonus.
The exact value `(3t + 70) / 5` has denominator 5, so it is never an exact
half; Python's round-half-to-even therefore agrees with plain
round-to-nearest, i.e. `⌊(6t + 145) / 10⌋`. -/
def bonusRound (t : Int) : Int :=
  (6 * t + 145).fdiv 10

/-- The data of one `(weekNumber, eventTeam)` entry of
`SeasonTeam.eventTeams`: the containing event, the event-scoped team's awards
and alliance seat, and its per-event points tuple. -/
structure EventTeamRec where
  eventId : Nat
  awards : List String
  allianceRole : Int
  points : RP
deriving DecidableEq, Repr

/-- The per-season data of a `SeasonTeam` that the aggregation and
auto-advancement code reads. -/
structure SeasonTeamData where
  teamNumber : Nat
  districtCode : Option String
  eventTeams : List (Nat × EventTeamRec)
deriving DecidableEq, Repr

/-- `SeasonTeam.events_before_week_number`. -/
def events_before_week_number (td : SeasonTeamData) (weekNumber : Nat) :
    List EventTeamRec :=
  (td.eventTeams.filter fun p => p.1 ≤ weekNumber).map Prod.snd

/-- `SeasonTeam.events_at_week_number`. -/
def events_at_week_number (td : SeasonTeamData) (weekNumber : Nat) :
    List EventTeamRec :=
  (td.eventTeams.filter fun p => p.1 = weekNumber).map Prod.snd

/-- The body of the `for mEventTeam in events` loop of `get_regional_points`,
acting on the accumulator `(regionalPoints, eventCount)`. -/
def rpStep (acc : RP × Nat) (et : EventTeamRec) : RP × Nat :=
  let rp := acc.1
  let cur := et.points
  let total := if acc.2 ≤ 1 then rp.total + cur.total else rp.total
  let b := mergeBest3 (rp.b1, rp.b2, rp.b3) (cur.b1, cur.b2, cur.b3)
  (⟨total, max rp.playoff cur.playoff, max rp.alliance cur.alliance,
    max rp.quals cur.quals, b.1, b.2.1, b.2.2⟩, acc.2 + 1)

/-- Embedding of `SeasonTeam.get_regional_points` (`Team.py` lines 318–340).
`adjustments` is the table returned by the external
`request_regional_adjustments`. -/
def get_regional_points (adjustments : Nat → Option Int)
    (td : SeasonTeamData) (weekNumber : Nat) : RP :=
  let events := events_before_week_number td weekNumber
  let rp := (events.foldl rpStep (⟨0, 0, 0, 0, 0, 0, 0⟩, 0)).1
  let rp := if events.length = 1 then
    { rp with total := rp.total + bonusRound rp.total } else rp
  match adjustments td.teamNumber with
  | some adj => if weekNumber = 6 then { rp with total := rp.total + adj } else rp
  | none => rp

/-- The result dictionary of `get_auto_advancement_2025`.  `qualifiedEvent`
holds the event of the `eventTeam` that produced the qualification. -/
structure AutoAdv where
  isQualified : Bool
  qualifiedFor : Option String
  qualifiedEvent : Option Nat
deriving DecidableEq, Repr

/-- The `for mEventTeam in events` award scan of `get_auto_advancement_2025`:
first event matching the `elif` chain wins (the loop `break`s). -/
def autoAdvScan : List EventTeamRec → AutoAdv
  | [] => ⟨false, none, none⟩
  | et :: rest =>
    if "Regional FIRST Impact Award" ∈ et.awards then
      ⟨true, some "FIA", some et.eventId⟩
    else if "Regional Chairman's Award" ∈ et.awards then
      ⟨true, some "FIA", some et.eventId⟩
    else if "Regional Engineering Inspiration Award" ∈ et.awards then
      ⟨true, some "EI", some et.eventId⟩
    else if "Regional Winners" ∈ et.awards ∧ et.allianceRole ≤ 2 then
      ⟨true, some "Winner", some et.eventId⟩
    else autoAdvScan rest

/-- Embedding of `SeasonTeam.get_auto_advancement_2025` (`Team.py` lines
342–393).  For a non-pre-qualified team and `weekNumber ≤ 1` neither branch
assigns the local `events`, and the subsequent `for` loop raises
`UnboundLocalError`; that is the `Except.error ()` case. -/
def get_auto_advancement_2025 (c : SeasonConsts) (td : SeasonTeamData)
    (weekNumber : Nat) : Except Unit AutoAdv :=
  if td.teamNumber ∈ c.preQualified then
    .ok ⟨true, some "Pre-qualified", none⟩
  else if weekNumber = 2 then
    .ok (autoAdvScan (events_before_week_number td 2))
  else if 3 ≤ weekNumber then
    .ok (autoAdvScan (events_at_week_number td weekNumber))
  else .error ()

/-! ## models/match.py and the finals logic of Event.py

Python compares score lists lexicographically; on `List Int` this is exactly
Mathlib's `List.Lex (· < ·)` linear order, so `<` and `≤` below are Python's
list comparisons. -/

/-- The data of one `Match` that `result_query` / `get_match_winloser` read.
Alliances are identified by ids; `redTeams` / `blueTeams` are the members of
the red and blue alliances (`AllianceBase.is_member`). -/
structure MatchData where
  redAllianceId : Nat
  blueAllianceId : Nat
  redTeams : List Nat
  blueTeams : List Nat
  dqTeams : List Nat
  redScore : List Int
  blueScore : List Int
deriving DecidableEq, Repr

/-- The tail of `Match.result_query` once membership has been resolved to a
side `red`. -/
def resultTail (m : MatchData) (red : Bool) (t : Nat) : String :=
  if t ∈ m.dqTeams then "disqualified"
  else if m.redScore = m.blueScore then "tie"
  else if red = decide (m.blueScore < m.redScore) then "win"
  else "lose"

/-- Embedding of `Match.result_query` (`match.py` lines 73–86). -/
def result_query (m : MatchData) (t : Nat) : String :=
  if t ∈ m.redTeams then resultTail m true t
  else if t ∈ m.blueTeams then resultTail m false t
  else "wrong team"

/-- Embedding of `Match.get_match_winloser` (`match.py` lines 99–103):
`redScore >= blueScore` picks red as winner. -/
def get_match_winloser (m : MatchData) : Nat × Nat :=
  if m.blueScore ≤ m.redScore then (m.redAllianceId, m.blueAllianceId)
  else (m.blueAllianceId, m.redAllianceId)

/-- The slice of an `Event` that the finals logic reads: the season and the
playoff-match dictionary. -/
structure EventFinalsData where
  season : Int
  playoffMatches : List (Nat × MatchData)
deriving Repr

/-- `Event.get_playoff_from_number` (returns `None` on a missing key). -/
def get_playoff_from_number (e : EventFinalsData) (matchNumber : Nat) :
    Option MatchData :=
  e.playoffMatches.lookup matchNumber

/-- `Event.get_final_from_number`. -/
def get_final_from_number (e : EventFinalsData) (finalNumber : Nat) :
    Option MatchData :=
  if e.season ≤ 2022 then get_playoff_from_number e (finalNumber + 18)
  else get_playoff_from_number e (finalNumber + 13)

/-- Embedding of `Event.get_winner_and_finalist` (`Event.py` lines 217–225).
Python crashes when a needed final is missing (`None.get_match_winloser()`);
that is the `none` case. -/
def get_winner_and_finalist (e : EventFinalsData) : Option (Nat × Nat) := do
  let f1 ← get_final_from_number e 1
  let f2 ← get_final_from_number e 2
  let wl1 := get_match_winloser f1
  let wl2 := get_match_winloser f2
  if wl1.1 = wl2.1 then pure wl1
  else
    let f3 ← get_final_from_number e 3
    pure (get_match_winloser f3)

/-! ## Event.get_regional_points_rankings_2026 -/

/-- The sort key of `get_regional_points_rankings_2026`: the tuple
`(mTeam.regional_points_2025(), mTeam.teamNumber)`, flattened (a fixed-length
tuple nested in a tuple compares exactly like the flattened list). -/
def rankKey (p : Nat × RP) : List Int :=
  p.2.toList ++ [(p.1 : Int)]

/-- Ascending comparison of ranking entries, as Python `sorted` uses. -/
def pairLe (a b : Nat × RP) : Prop := rankKey a ≤ rankKey b

instance : DecidableRel pairLe := fun a b =>
  inferInstanceAs (Decidable (rankKey a ≤ rankKey b))

/-- Embedding of `Event.get_regional_points_rankings_2026` (`Event.py` lines
270–281): sort ascending, then reverse (`sorted(teams)[::-1]`); entry `i` of
the result is ranking key `i + 1` of the Python dict. -/
def get_regional_points_rankings_2026 (teams : List (Nat × RP)) :
    List (Nat × RP) :=
  (teams.insertionSort pairLe).reverse

/-! ## Season.py — the qualification allocator -/

/-- The mutable qualification state of one `SeasonTeam`. -/
structure QualState where
  isQualified : Bool
  qualifiedFor : Option String
  qualifiedEvent : Option Nat
deriving DecidableEq, Repr

/-- The season-wide qualification state, keyed by team number. -/
def QState : Type := Nat → QualState

/-- Point update of the state (assignment to one `SeasonTeam`'s fields). -/
def stUpdate (st : QState) (n : Nat) (q : QualState) : QState :=
  fun m => if m = n then q else st m

/-- `SeasonTeam.__init__`: pre-qualified teams start qualified. -/
def initState (c : SeasonConsts) : QState := fun n =>
  if n ∈ c.preQualified then ⟨true, some "Pre-qualified", none⟩
  else ⟨false, none, none⟩

/-- The static season data the allocator reads: the rule season, the backfill
switch, the `SeasonTeam` store, the events of each week (with each event's
per-team point tuples, for the 2026 per-event rankings), and the external
adjustments table. -/
structure Env where
  useSeason : Int
  allowBackfillIn2026 : Bool
  seasonTeams : List SeasonTeamData
  eventsOfWeek : Nat → List (Nat × List (Nat × RP))
  adjustments : Nat → Option Int

/-- `Season.get_season_team_from_number`: look the singleton up, creating a
fresh (event-less) `SeasonTeam` when the number is unknown. -/
def get_season_team_from_number (env : Env) (n : Nat) : SeasonTeamData :=
  match env.seasonTeams.find? (fun td => td.teamNumber = n) with
  | some td => td
  | none => ⟨n, none, []⟩

/-- `SeasonTeam.isDeclined` as the allocator reads it. -/
def declOf (env : Env) : Nat → Bool :=
  fun n => decide (n ∈ (get_constants env.useSeason).declined)

/-- Team number stored in slot 7 of a sort key. -/
def keyNum (k : List Int) : Nat := (k.getD 7 0).toNat

/-- The unsorted `sortPool` of `regional_pool_2025`: for every district-less
`SeasonTeam` whose 7-point tuple is not all zero, the 8-tuple
`(*points, teamNumber)`. -/
def buildSortPool (env : Env) (w : Nat) : List (List Int) :=
  env.seasonTeams.filterMap fun td =>
    if td.districtCode = none ∧
        (get_regional_points env.adjustments td w).toList ≠ [0, 0, 0, 0, 0, 0, 0]
    then some ((get_regional_points env.adjustments td w).toList
      ++ [(td.teamNumber : Int)])
    else none

/-- Descending comparison of sort keys (`sorted(sortPool, reverse=True)`). -/
def listGe (a b : List Int) : Prop := b ≤ a

instance : DecidableRel listGe := fun a b => inferInstanceAs (Decidable (b ≤ a))

instance : IsTotal (List Int) listGe := ⟨fun a b => le_total b a⟩

instance : IsTrans (List Int) listGe := ⟨fun _ _ _ h1 h2 => le_trans h2 h1⟩

/-- `sorted(sortPool, reverse=True)`. -/
def sortPoolDesc (pool : List (List Int)) : List (List Int) :=
  pool.insertionSort listGe

/-- The ranked regional pool of week `w` (entry `i` is rank `i + 1`). -/
def rankedPool (env : Env) (w : Nat) : List (List Int) :=
  sortPoolDesc (buildSortPool env w)

/-- The 2025 auto-advancement phase (`Season.py` lines 113–135): walk the
ranked pool, query `get_auto_advancement_2025` for each team, and qualify the
eligible, not-yet-qualified, non-declined ones. -/
def phase2025 (env : Env) (w : Nat) :
    List (List Int) → QState → Nat → Except Unit (QState × Nat)
  | [], st, pc => .ok (st, pc)
  | key :: rest, st, pc =>
    let n := keyNum key
    let td := get_season_team_from_number env n
    match get_auto_advancement_2025 (get_constants env.useSeason) td w with
    | .error e => .error e
    | .ok mAA =>
      if mAA.isQualified ∧ ¬((st n).isQualified = true) ∧ ¬(declOf env n = true)
      then phase2025 env w rest
        (stUpdate st n ⟨true, mAA.qualifiedFor, mAA.qualifiedEvent⟩) (pc + 1)
      else phase2025 env w rest st pc

/-- The 2026 backfill loop over one event's ranking (`Season.py` lines
148–168): while fewer than 3 slots are used, take the next ranked team; a team
that is already qualified is passed over without using a slot; an unqualified
team uses a slot, and is qualified unless declined.  Running out of ranking
entries (`KeyError`) breaks the loop. -/
def backfillLoop (dec : Nat → Bool) (eventId : Nat) :
    List Nat → QState → Nat → Nat → QState × Nat
  | [], st, pc, _ => (st, pc)
  | n :: rest, st, pc, cnt =>
    if cnt < 3 then
      if (st n).isQualified then backfillLoop dec eventId rest st pc cnt
      else if dec n then backfillLoop dec eventId rest st pc (cnt + 1)
      else backfillLoop dec eventId rest
        (stUpdate st n ⟨true, some s!"Slot {cnt + 1}", some eventId⟩)
        (pc + 1) (cnt + 1)
    else (st, pc)

/-- The 2026 no-backfill branch (`Season.py` lines 171–182): ranks 1, 2, 3
only; a missing rank raises `KeyError` (`Except.error`). -/
def noBackfill3 (dec : Nat → Bool) (eventId : Nat) (rankings : List Nat) :
    List Nat → QState → Nat → Except Unit (QState × Nat)
  | [], st, pc => .ok (st, pc)
  | r :: rs, st, pc =>
    match rankings.get? (r - 1) with
    | none => .error ()
    | some n =>
      if ¬((st n).isQualified = true) ∧ ¬(dec n = true) then
        noBackfill3 dec eventId rankings rs
          (stUpdate st n ⟨true, some s!"Rank {r}", some eventId⟩) (pc + 1)
      else noBackfill3 dec eventId rankings rs st pc

/-- The 2026 auto-advancement phase, iterated over the week's events. -/
def phase2026Events (env : Env) :
    List (Nat × List (Nat × RP)) → QState → Nat → Except Unit (QState × Nat)
  | [], st, pc => .ok (st, pc)
  | (evId, teams) :: rest, st, pc =>
    let rankings := (get_regional_points_rankings_2026 teams).map Prod.fst
    if env.allowBackfillIn2026 then
      let r := backfillLoop (declOf env) evId rankings st pc 0
      phase2026Events env rest r.1 r.2
    else
      match noBackfill3 (declOf env) evId rankings [1, 2, 3] st pc with
      | .error e => .error e
      | .ok (st1, pc1) => phase2026Events env rest st1 pc1

/-- The 2026 auto-advancement phase for week `w` (week 2 merges weeks 1–2). -/
def phase2026 (env : Env) (w : Nat) (st : QState) (pc : Nat) :
    Except Unit (QState × Nat) :=
  phase2026Events env
    (if w = 2 then env.eventsOfWeek 1 ++ env.eventsOfWeek 2
     else env.eventsOfWeek w) st pc

/-- The `match self.useSeason` dispatch of the auto-advancement phase; seasons
after 2026 match no case and run no auto-advancement. -/
def allocPhases (env : Env) (w : Nat) (ranked : List (List Int)) (st : QState) :
    Except Unit (QState × Nat) :=
  if env.useSeason = 2025 then phase2025 env w ranked st 0
  else if env.useSeason = 2026 then phase2026 env w st 0
  else .ok (st, 0)

/-- The weekly fixed-slot phase as refactored in
`src/frc_calculator/services/season.py` lines 146–156: walk the ranked pool
while the quota is unmet AND entries remain, qualifying unqualified
non-declined teams (the phase sets `isQualified` and `qualifiedFor` only). -/
def weeklySlotPhase (dec : Nat → Bool) (quota : Int) (w : Nat) :
    List (List Int) → QState → Nat → QState × Nat
  | [], st, pc => (st, pc)
  | key :: rest, st, pc =>
    if (pc : Int) < quota then
      let n := keyNum key
      if ¬((st n).isQualified = true) ∧ ¬(dec n = true) then
        weeklySlotPhase dec quota w rest
          (stUpdate st n ⟨true, some s!"Week {w}", (st n).qualifiedEvent⟩)
          (pc + 1)
      else weeklySlotPhase dec quota w rest st pc
    else (st, pc)

/-- The weekly fixed-slot phase as in the legacy `Season.py` lines 186–195:
the `while` loop is bounded only by the quota, so exhausting the ranked pool
with the quota unmet looks up a missing key (`KeyError`), here
`Except.error`. -/
def weeklySlotPhaseLegacy (dec : Nat → Bool) (quota : Int) (w : Nat) :
    List (List Int) → QState → Nat → Except Unit (QState × Nat)
  | [], st, pc => if (pc : Int) < quota then .error () else .ok (st, pc)
  | key :: rest, st, pc =>
    if (pc : Int) < quota then
      let n := keyNum key
      if ¬((st n).isQualified = true) ∧ ¬(dec n = true) then
        weeklySlotPhaseLegacy dec quota w rest
          (stUpdate st n ⟨true, some s!"Week {w}", (st n).qualifiedEvent⟩)
          (pc + 1)
      else weeklySlotPhaseLegacy dec quota w rest st pc
    else .ok (st, pc)

/-- List indexing with Python semantics (negative indices wrap once). -/
def pyIndex (l : List Int) (i : Int) : Option Int :=
  if 0 ≤ i then l.get? i.toNat
  else if 0 ≤ i + l.length then l.get? (i + l.length).toNat
  else none

/-- One output row of `regional_pool_2025`. -/
structure PoolEntry where
  rank : Nat
  teamNumber : Nat
  points : List Int
  isQualified : Bool
  qualifiedFor : Option String
  qualifiedEvent : Option Nat
  declined : Bool
deriving DecidableEq, Repr

/-- The final annotation pass of `regional_pool_2025`: the ranked pool
decorated with each team's qualification state. -/
def emit (dec : Nat → Bool) (ranked : List (List Int)) (st : QState) :
    List PoolEntry :=
  ranked.enum.map fun p =>
    let n := keyNum p.2
    ⟨p.1 + 1, n, p.2.take 7, (st n).isQualified, (st n).qualifiedFor,
      (st n).qualifiedEvent, dec n⟩

/-- The body of one week of `regional_pool_2025` after the recursive call:
build and sort the pool, run the season-variant auto-advancement phase, run
the weekly fixed-slot phase with quota `weeklySlots()[weekNumber - 2]`, and
emit the annotated pool. -/
def weekBody (env : Env) (w : Nat) (st : QState) :
    Except Unit (QState × List PoolEntry) :=
  let ranked := rankedPool env w
  match allocPhases env w ranked st with
  | .error e => .error e
  | .ok (st2, pc) =>
    match pyIndex (get_constants env.useSeason).weeklySlots ((w : Int) - 2) with
    | none => .error ()
    | some quota =>
      let r := weeklySlotPhase (declOf env) quota w ranked st2 pc
      .ok (r.1, emit (declOf env) ranked r.1)

/-- Embedding of `Season.regional_pool_2025` (`Season.py` lines 69–207,
`services/season.py` lines 65–167) as a state-passing function: before 2025
rules there is no pool; week `w ≥ 3` first recomputes week `w - 1`
(discarding its output, keeping its state). -/
def regional_pool_2025 (env : Env) : Nat → QState → Except Unit (QState × List PoolEntry)
  | n + 3, st =>
    if env.useSeason < 2025 then .ok (st, [])
    else
      match regional_pool_2025 env (n + 2) st with
      | .error e => .error e
      | .ok (st1, _) => weekBody env (n + 3) st1
  | w, st =>
    if env.useSeason < 2025 then .ok (st, [])
    else weekBody env w st

/-- A caller-driven ascending sequence of weekly invocations, threading the
shared `SeasonTeam` state and collecting each week's output. -/
def runWeeks (env : Env) : List Nat → QState → Except Unit (QState × List (List PoolEntry))
  | [], st => .ok (st, [])
  | w :: ws, st =>
    match regional_pool_2025 env w st with
    | .error e => .error e
    | .ok (st1, out) =>
      match runWeeks env ws st1 with
      | .error e => .error e
      | .ok (st2, outs) => .ok (st2, out :: outs)

/-! # Theorems -/

/-! ## C8 — the `erfinv` contract -/

lemma bisectBody_eq (erf : ℚ → ℚ) (x a b c : ℚ) :
    bisectBody erf x (a, b, c) =
      ((bracketStep erf x (a, b)).1, (bracketStep erf x (a, b)).2, (a + b) / 2) := by
  simp only [bisectBody, bracketStep]
  split <;> rfl

lemma bisectRun_spec (erf : ℚ → ℚ) (x : ℚ) :
    ∀ (n : Nat) (a b c : ℚ),
      bisectRun erf x (a, b, c) (n + 1) =
        (((bracketStep erf x)^[n + 1] (a, b)).1,
          ((bracketStep erf x)^[n + 1] (a, b)).2,
          (((bracketStep erf x)^[n] (a, b)).1
            + ((bracketStep erf x)^[n] (a, b)).2) / 2) := by
  intro n
  induction n with
  | zero =>
    intro a b c
    simp only [bisectRun, bisectBody_eq, Function.iterate_one, Function.iterate_zero,
      id_eq]
    rfl
  | succ n ih =>
    intro a b c
    show bisectRun erf x (bisectBody erf x (a, b, c)) (n + 1) = _
    rw [bisectBody_eq]
    rw [ih (bracketStep erf x (a, b)).1 (bracketStep erf x (a, b)).2 ((a + b) / 2)]
    simp only [← Function.iterate_succ_apply]

/-- C8: `erfinv` fails exactly when `x ≤ -1` or `x ≥ 1`; it returns exactly
`0` when `x = 0`; for every other `x` strictly inside `(-1, 1)` it returns the
midpoint computed in the 100th bisection pass over the bracket that started at
`[0, 4x]` (`[4x, 0]` for negative `x`) — deterministically (it is a pure
function of `erf` and `x`). -/
theorem erfinv_bisection_contract (erf : ℚ → ℚ) (x : ℚ) :
    (erfinv erf x = .error () ↔ x ≤ -1 ∨ x ≥ 1) ∧
    (x = 0 → erfinv erf x = .ok 0) ∧
    (-1 < x → x < 1 → x ≠ 0 → erfinv erf x = .ok (nthMidpoint erf x 100)) := by
  refine ⟨?_, ?_, ?_⟩
  · constructor
    · intro h
      by_contra hc
      rw [erfinv, if_neg hc] at h
      by_cases h0 : x = 0
      · rw [if_pos h0] at h
        exact Except.noConfusion h
      · rw [if_neg h0] at h
        exact Except.noConfusion h
    · intro h
      rw [erfinv, if_pos h]
  · intro h0
    have hrange : ¬(x ≤ -1 ∨ x ≥ 1) := by
      subst h0
      norm_num
    rw [erfinv, if_neg hrange, if_pos h0]
  · intro h1 h2 h0
    have hrange : ¬(x ≤ -1 ∨ x ≥ 1) := by
      push_neg
      exact ⟨by linarith, by linarith⟩
    by_cases hneg : x < 0
    · have hx : erfinv erf x = .ok ((bisectRun erf x (4 * x, 0, 0) 100).2.2) := by
        rw [erfinv, if_neg hrange, if_neg h0]
        simp only [if_pos hneg]
      rw [hx, show (100 : Nat) = 99 + 1 from rfl, bisectRun_spec erf x 99 (4 * x) 0 0]
      simp only [nthMidpoint, bisectBracket, if_pos hneg]
    · have hx : erfinv erf x = .ok ((bisectRun erf x (0, 4 * x, 0) 100).2.2) := by
        rw [erfinv, if_neg hrange, if_neg h0]
        simp only [if_neg hneg]
      rw [hx, show (100 : Nat) = 99 + 1 from rfl, bisectRun_spec erf x 99 0 (4 * x) 0]
      simp only [nthMidpoint, bisectBracket, if_neg hneg]

/-- Witness for C8 at `erf := id` and concrete inputs `3/2`, `0`, `1/2`. -/
theorem erfinv_bisection_contract_witness :
    erfinv (id : ℚ → ℚ) (3 / 2) = .error () ∧
    erfinv (id : ℚ → ℚ) 0 = .ok 0 ∧
    erfinv (id : ℚ → ℚ) (1 / 2) = .ok (nthMidpoint (id : ℚ → ℚ) (1 / 2) 100) :=
  ⟨(erfinv_bisection_contract (id : ℚ → ℚ) (3 / 2)).1.mpr (by norm_num),
    (erfinv_bisection_contract (id : ℚ → ℚ) 0).2.1 rfl,
    (erfinv_bisection_contract (id : ℚ → ℚ) (1 / 2)).2.2 (by norm_num) (by norm_num)
      (by norm_num)⟩

/-! ## C5 — the best-3 merge under self-merge -/

lemma insertionSort_two_triples (a b c : Int) (hcb : c ≤ b) (hba : b ≤ a) :
    List.insertionSort (fun p q : Int => p ≤ q) [a, b, c, a, b, c] =
      [c, c, b, b, a, a] := by
  rcases eq_or_lt_of_le hcb with h1 | h1 <;> rcases eq_or_lt_of_le hba with h2 | h2
  · subst h1; subst h2
    simp [List.insertionSort, List.orderedInsert]
  · subst h1
    have hna : ¬ a ≤ c := not_le.mpr h2
    simp [List.insertionSort, List.orderedInsert, hna, le_refl]
  · subst h2
    have hnb : ¬ b ≤ c := not_le.mpr h1
    simp [List.insertionSort, List.orderedInsert, hnb, le_refl]
  · have hnb : ¬ b ≤ c := not_le.mpr h1
    have hna : ¬ a ≤ c := not_le.mpr (h1.trans h2)
    have hnab : ¬ a ≤ b := not_le.mpr h2
    simp [List.insertionSort, List.orderedInsert, hnb, hna, hnab, le_refl]

/-- C5 (counterexample): merging the best-3 triple `(50, 30, 0)` with itself
does not return the same triple — the code's slice keeps the top 3 of the
doubled multiset, `(50, 50, 30)`. -/
theorem mergeBest3_self_not_id :
    mergeBest3 (50, 30, 0) (50, 30, 0) = (50, 50, 30) ∧
    mergeBest3 (50, 30, 0) (50, 30, 0) ≠ (50, 30, 0) := by
  constructor <;> decide

/-- C5 (amended): merging a descending best-3 triple `(a, b, c)` with itself
yields `(a, a, b)` — so the merge is idempotent under self-merge exactly for
constant triples. -/
theorem mergeBest3_self_merge (a b c : Int) (hcb : c ≤ b) (hba : b ≤ a) :
    mergeBest3 (a, b, c) (a, b, c) = (a, a, b) := by
  show (let s := List.insertionSort (fun p q : Int => p ≤ q) [a, b, c, a, b, c]
    (s.getD 5 0, s.getD 4 0, s.getD 3 0)) = (a, a, b)
  rw [insertionSort_two_triples a b c hcb hba]
  rfl

/-- Witness for C5's amended theorem at the triple `(5, 3, 1)`. -/
theorem mergeBest3_self_merge_witness :
    mergeBest3 (5, 3, 1) (5, 3, 1) = (5, 5, 3) :=
  mergeBest3_self_merge 5 3 1 (by decide) (by decide)

/-! ## C4 — the shape of `get_regional_points` -/

/-- The running total as the spec describes it: the sum of the per-event
totals of the first two counted events, with the single-event projection bonus
when exactly one event has been counted. -/
def baseTotal (td : SeasonTeamData) (w : Nat) : Int :=
  let evs := events_before_week_number td w
  let s := ((evs.take 2).map fun e => e.points.total).sum
  if evs.length = 1 then s + bonusRound s else s

lemma rpFoldl_total :
    ∀ (evs : List EventTeamRec) (rp : RP) (k : Nat),
      ((evs.foldl rpStep (rp, k)).1).total =
        rp.total + (((evs.take (2 - k)).map fun e => e.points.total).sum) := by
  intro evs
  induction evs with
  | nil => intro rp k; simp
  | cons e evs ih =>
    intro rp k
    rw [List.foldl_cons]
    rcases k with _ | _ | k
    · rw [show rpStep (rp, 0) e = (⟨rp.total + e.points.total,
        max rp.playoff e.points.playoff, max rp.alliance e.points.alliance,
        max rp.quals e.points.quals,
        (mergeBest3 (rp.b1, rp.b2, rp.b3) (e.points.b1, e.points.b2, e.points.b3)).1,
        (mergeBest3 (rp.b1, rp.b2, rp.b3) (e.points.b1, e.points.b2, e.points.b3)).2.1,
        (mergeBest3 (rp.b1, rp.b2, rp.b3) (e.points.b1, e.points.b2, e.points.b3)).2.2⟩,
        1) from rfl, ih]
      simp [List.take]
      ring
    · rw [show rpStep (rp, 1) e = (⟨rp.total + e.points.total,
        max rp.playoff e.points.playoff, max rp.alliance e.points.alliance,
        max rp.quals e.points.quals,
        (mergeBest3 (rp.b1, rp.b2, rp.b3) (e.points.b1, e.points.b2, e.points.b3)).1,
        (mergeBest3 (rp.b1, rp.b2, rp.b3) (e.points.b1, e.points.b2, e.points.b3)).2.1,
        (mergeBest3 (rp.b1, rp.b2, rp.b3) (e.points.b1, e.points.b2, e.points.b3)).2.2⟩,
        2) from rfl, ih]
      simp [List.take]
    · rw [show rpStep (rp, k + 2) e = (⟨rp.total,
        max rp.playoff e.points.playoff, max rp.alliance e.points.alliance,
        max rp.quals e.points.quals,
        (mergeBest3 (rp.b1, rp.b2, rp.b3) (e.points.b1, e.points.b2, e.points.b3)).1,
        (mergeBest3 (rp.b1, rp.b2, rp.b3) (e.points.b1, e.points.b2, e.points.b3)).2.1,
        (mergeBest3 (rp.b1, rp.b2, rp.b3) (e.points.b1, e.points.b2, e.points.b3)).2.2⟩,
        k + 3) from rfl, ih]
      simp

lemma rpFoldl_playoff :
    ∀ (evs : List EventTeamRec) (rp : RP) (k : Nat),
      ((evs.foldl rpStep (rp, k)).1).playoff =
        evs.foldl (fun m e => max m e.points.playoff) rp.playoff := by
  intro evs
  induction evs with
  | nil => intro rp k; simp
  | cons e evs ih =>
    intro rp k
    rw [List.foldl_cons, List.foldl_cons]
    exact ih (rpStep (rp, k) e).1 (k + 1)

lemma rpFoldl_alliance :
    ∀ (evs : List EventTeamRec) (rp : RP) (k : Nat),
      ((evs.foldl rpStep (rp, k)).1).alliance =
        evs.foldl (fun m e => max m e.points.alliance) rp.alliance := by
  intro evs
  induction evs with
  | nil => intro rp k; simp
  | cons e evs ih =>
    intro rp k
    rw [List.foldl_cons, List.foldl_cons]
    have := ih (rpStep (rp, k) e).1 (k + 1)
    rw [show ((rpStep (rp, k) e).1).alliance = max rp.alliance e.points.alliance from rfl] at this
    exact this

lemma rpFoldl_quals :
    ∀ (evs : List EventTeamRec) (rp : RP) (k : Nat),
      ((evs.foldl rpStep (rp, k)).1).quals =
        evs.foldl (fun m e => max m e.points.quals) rp.quals := by
  intro evs
  induction evs with
  | nil => intro rp k; simp
  | cons e evs ih =>
    intro rp k
    rw [List.foldl_cons, List.foldl_cons]
    have := ih (rpStep (rp, k) e).1 (k + 1)
    rw [show ((rpStep (rp, k) e).1).quals = max rp.quals e.points.quals from rfl] at this
    exact this

/-- C4 (amended): the `total` component of `get_regional_points` is the sum
of the per-event totals of the first two counted events only (a 3rd+ event
adds nothing), **plus** the single-event projection bonus when exactly one
event was counted, **plus** the external adjustment when `w = 6`; the
`playoff` / `alliance` / `quals` components are running maxima over all
counted events. -/
theorem get_regional_points_components (adjustments : Nat → Option Int)
    (td : SeasonTeamData) (w : Nat) :
    ((get_regional_points adjustments td w).total =
      match adjustments td.teamNumber with
      | some adj => if w = 6 then baseTotal td w + adj else baseTotal td w
      | none => baseTotal td w) ∧
    (get_regional_points adjustments td w).playoff =
      (events_before_week_number td w).foldl (fun m e => max m e.points.playoff) 0 ∧
    (get_regional_points adjustments td w).alliance =
      (events_before_week_number td w).foldl (fun m e => max m e.points.alliance) 0 ∧
    (get_regional_points adjustments td w).quals =
      (events_before_week_number td w).foldl (fun m e => max m e.points.quals) 0 := by
  have htot := rpFoldl_total (events_before_week_number td w) ⟨0, 0, 0, 0, 0, 0, 0⟩ 0
  have hpl := rpFoldl_playoff (events_before_week_number td w) ⟨0, 0, 0, 0, 0, 0, 0⟩ 0
  have hal := rpFoldl_alliance (events_before_week_number td w) ⟨0, 0, 0, 0, 0, 0, 0⟩ 0
  have hqu := rpFoldl_quals (events_before_week_number td w) ⟨0, 0, 0, 0, 0, 0, 0⟩ 0
  rcases hadj : adjustments td.teamNumber with _ | adj <;>
    by_cases hlen : (events_before_week_number td w).length = 1 <;>
    by_cases hw : w = 6 <;>
    simp_all [get_regional_points, baseTotal, hadj, hlen, hw]

/-- A one-event team: week-1 event with per-event total 100. -/
def tdC4 : SeasonTeamData :=
  ⟨42, none, [(1, ⟨7, [], 17, ⟨100, 10, 9, 8, 50, 40, 30⟩⟩)]⟩

/-- C4 (counterexample): for a one-event team `get_regional_points` returns
total `174 = 100 + round(100 * 0.6 + 14)`, not the sum `100` of the first two
counted per-event totals. -/
theorem get_regional_points_single_event_cex :
    (get_regional_points (fun _ => none) tdC4 2).total = 174 ∧
    ((((events_before_week_number tdC4 2).take 2).map
      fun e => e.points.total).sum = 100) ∧
    (174 : Int) ≠ 100 :=
  ⟨by decide, by decide, by decide⟩

/-! ## C9 — winner-on-tie versus `result_query` -/

/-- Final 1: an exact tie (equal score breakdowns). -/
def f1C9 : MatchData := ⟨1, 2, [10, 11, 12], [20, 21, 22], [], [50, 10, 5], [50, 10, 5]⟩

/-- Final 2: another exact tie between the same alliances. -/
def f2C9 : MatchData := ⟨1, 2, [10, 11, 12], [20, 21, 22], [], [40, 8, 3], [40, 8, 3]⟩

/-- A 2025-format event whose two finals both ended in exact ties. -/
def evTieC9 : EventFinalsData := ⟨2025, [(14, f1C9), (15, f2C9)]⟩

/-- A tied match in which red-side team 10 was disqualified. -/
def mDqC9 : MatchData := ⟨1, 2, [10, 11, 12], [20, 21, 22], [10], [50, 10, 5], [50, 10, 5]⟩

/-- C9 (counterexample): in a tied match with a disqualified participant,
`result_query` answers `"disqualified"`, not `"tie"`, so `result_query` does
not report `"tie"` for *every* team of a tied match. -/
theorem result_query_tie_dq_cex :
    mDqC9.redScore = mDqC9.blueScore ∧ 10 ∈ mDqC9.redTeams ∧
    result_query mDqC9 10 = "disqualified" ∧ result_query mDqC9 10 ≠ "tie" := by
  refine ⟨by decide, by decide, by decide, by decide⟩

/-- C9 (amended): for every match with equal red and blue score breakdowns,
`get_match_winloser` names the red alliance the winner, while `result_query`
answers `"tie"` for every *non-disqualified* participant; consequently
`get_winner_and_finalist` declares a winner (the red alliance) for an event
whose finals all ended in exact ties. -/
theorem tie_winner_discrepancy :
    (∀ m : MatchData, m.redScore = m.blueScore →
      get_match_winloser m = (m.redAllianceId, m.blueAllianceId) ∧
      ∀ t, (t ∈ m.redTeams ∨ t ∈ m.blueTeams) → t ∉ m.dqTeams →
        result_query m t = "tie") ∧
    get_winner_and_finalist evTieC9 = some (1, 2) ∧
    f1C9.redScore = f1C9.blueScore ∧ f2C9.redScore = f2C9.blueScore := by
  refine ⟨?_, by decide, by decide, by decide⟩
  intro m h
  constructor
  · rw [get_match_winloser, h, if_pos le_rfl]
  · intro t ht hdq
    by_cases hr : t ∈ m.redTeams
    · rw [result_query, if_pos hr, resultTail, if_neg hdq, if_pos h]
    · have hb : t ∈ m.blueTeams := ht.resolve_left hr
      rw [result_query, if_neg hr, if_pos hb, resultTail, if_neg hdq, if_pos h]

/-- Witness for C9's amended theorem at the tied final `f1C9`. -/
theorem tie_winner_discrepancy_witness :
    get_match_winloser f1C9 = (1, 2) ∧ result_query f1C9 10 = "tie" :=
  ⟨(tie_winner_discrepancy.1 f1C9 (by decide)).1,
    (tie_winner_discrepancy.1 f1C9 (by decide)).2 10 (Or.inl (by decide)) (by decide)⟩

/-! ## C10 — `get_auto_advancement_2025` at weeks 0 and 1 -/

/-- C10: for a team that is not pre-qualified, `get_auto_advancement_2025`
raises (its local `events` is never assigned) exactly when the week number is
at most 1; consequently a 2025 `regional_pool_2025` invocation at such a week
fails as soon as the ranked pool's first member is not pre-qualified. -/
theorem get_auto_advancement_week_domain (c : SeasonConsts) (td : SeasonTeamData)
    (w : Nat) (h : td.teamNumber ∉ c.preQualified) :
    (get_auto_advancement_2025 c td w = .error () ↔ w ≤ 1) ∧
    (∀ env st k t, env.useSeason = 2025 → c = get_constants 2025 → w ≤ 1 →
      rankedPool env w = k :: t →
      get_season_team_from_number env (keyNum k) = td →
      regional_pool_2025 env w st = .error ()) := by
  have hfun : get_auto_advancement_2025 c td w = .error () ↔ w ≤ 1 := by
    rw [get_auto_advancement_2025, if_neg h]
    by_cases h2 : w = 2
    · rw [if_pos h2]
      exact ⟨fun hh => Except.noConfusion hh, fun hh => by omega⟩
    · by_cases h3 : 3 ≤ w
      · rw [if_neg h2, if_pos h3]
        exact ⟨fun hh => Except.noConfusion hh, fun hh => by omega⟩
      · rw [if_neg h2, if_neg h3]
        exact ⟨fun _ => by omega, fun _ => rfl⟩
  refine ⟨hfun, ?_⟩
  intro env st k t hus hc hw hpool htd
  have herr : get_auto_advancement_2025 (get_constants env.useSeason)
      (get_season_team_from_number env (keyNum k)) w = .error () := by
    rw [htd, hus, ← hc]
    exact hfun.mpr hw
  have hph : allocPhases env w (rankedPool env w) st = .error () := by
    rw [allocPhases, if_pos hus, hpool, phase2025, herr]
  have hbody : regional_pool_2025 env w st =
      (if env.useSeason < 2025 then .ok (st, []) else weekBody env w st) := by
    interval_cases w
    · rfl
    · rfl
  rw [hbody, if_neg (by rw [hus]; omega)]
  rw [weekBody]
  rw [hph]

/-- The one-team environment used in the C10 witness. -/
def envC10 : Env := ⟨2025, true, [tdC4], fun _ => [], fun _ => none⟩

/-- Witness for C10 at team 42 (not pre-qualified) and week 1. -/
theorem get_auto_advancement_week_domain_witness :
    get_auto_advancement_2025 season2025Constants tdC4 1 = .error () ∧
    regional_pool_2025 envC10 1 (initState season2025Constants) = .error () :=
  ⟨(get_auto_advancement_week_domain season2025Constants tdC4 1 (by decide)).1.mpr
      (by decide),
    (get_auto_advancement_week_domain season2025Constants tdC4 1 (by decide)).2
      envC10 (initState season2025Constants) ((rankedPool envC10 1).headD [])
      ((rankedPool envC10 1).tail) rfl rfl (by decide) rfl rfl⟩

/-! ## C2 / C3 — the weekly fixed-slot phase -/

/-- The teams (among `ns`) that a state transition `st → st'` newly
qualified. -/
def newlyQualified (st st' : QState) (ns : List Nat) : List Nat :=
  ns.filter fun n => !(st n).isQualified && (st' n).isQualified

lemma newlyQualified_self (st : QState) (ns : List Nat) :
    newlyQualified st st ns = [] := by
  unfold newlyQualified
  induction ns with
  | nil => rfl
  | cons n ns ih =>
    rw [List.filter_cons]
    simp only [ih]
    cases h : (st n).isQualified <;> simp

lemma newlyQualified_congr (st1 st st' : QState) (ns : List Nat)
    (h : ∀ m ∈ ns, st1 m = st m) :
    newlyQualified st1 st' ns = newlyQualified st st' ns := by
  unfold newlyQualified
  induction ns with
  | nil => rfl
  | cons n ns ih =>
    rw [List.filter_cons, List.filter_cons,
      h n (List.mem_cons_self n ns), ih fun m hm => h m (List.mem_cons_of_mem n hm)]

lemma wsp_monotone (dec : Nat → Bool) (q : Int) (w : Nat) :
    ∀ (ranked : List (List Int)) (st : QState) (pc : Nat) (n : Nat),
      (st n).isQualified = true →
      ((weeklySlotPhase dec q w ranked st pc).1 n).isQualified = true := by
  intro ranked
  induction ranked with
  | nil => intro st pc n h; exact h
  | cons key rest ih =>
    intro st pc n h
    rw [weeklySlotPhase]
    by_cases hpc : (pc : Int) < q
    · rw [if_pos hpc]
      by_cases hcond : ¬((st (keyNum key)).isQualified = true) ∧
          ¬(dec (keyNum key) = true)
      · rw [if_pos hcond]
        refine ih _ _ n ?_
        unfold stUpdate
        by_cases he : n = keyNum key
        · rw [if_pos he]
        · rw [if_neg he]; exact h
      · rw [if_neg hcond]
        exact ih _ _ n h
    · rw [if_neg hpc]
      exact h

lemma wsp_frame (dec : Nat → Bool) (q : Int) (w : Nat) :
    ∀ (ranked : List (List Int)) (st : QState) (pc : Nat) (n : Nat),
      n ∉ ranked.map keyNum →
      (weeklySlotPhase dec q w ranked st pc).1 n = st n := by
  intro ranked
  induction ranked with
  | nil => intro st pc n _; rfl
  | cons key rest ih =>
    intro st pc n hn
    rw [List.map_cons] at hn
    have hne : n ≠ keyNum key := by
      intro he
      exact hn (by rw [he]; exact List.mem_cons_self _ _)
    have hrest : n ∉ rest.map keyNum := fun hm => hn (List.mem_cons_of_mem _ hm)
    rw [weeklySlotPhase]
    by_cases hpc : (pc : Int) < q
    · rw [if_pos hpc]
      by_cases hcond : ¬((st (keyNum key)).isQualified = true) ∧
          ¬(dec (keyNum key) = true)
      · rw [if_pos hcond, ih _ _ n hrest]
        unfold stUpdate
        rw [if_neg hne]
      · rw [if_neg hcond]
        exact ih _ _ n hrest
    · rw [if_neg hpc]

lemma wsp_count (dec : Nat → Bool) (q : Int) (w : Nat) :
    ∀ (ranked : List (List Int)) (st : QState) (pc : Nat),
      (ranked.map keyNum).Nodup →
      (weeklySlotPhase dec q w ranked st pc).2 =
        pc + (newlyQualified st (weeklySlotPhase dec q w ranked st pc).1
          (ranked.map keyNum)).length := by
  intro ranked
  induction ranked with
  | nil =>
    intro st pc _
    rw [show (weeklySlotPhase dec q w [] st pc) = (st, pc) from rfl]
    rw [newlyQualified_self]
    rfl
  | cons key rest ih =>
    intro st pc hnd
    rw [List.map_cons] at hnd ⊢
    have hnotin : keyNum key ∉ rest.map keyNum := (List.nodup_cons.1 hnd).1
    have hndr : (rest.map keyNum).Nodup := (List.nodup_cons.1 hnd).2
    rw [weeklySlotPhase]
    by_cases hpc : (pc : Int) < q
    · rw [if_pos hpc]
      by_cases hcond : ¬((st (keyNum key)).isQualified = true) ∧
          ¬(dec (keyNum key) = true)
      · rw [if_pos hcond]
        have hst1 : (stUpdate st (keyNum key)
            ⟨true, some s!"Week {w}", (st (keyNum key)).qualifiedEvent⟩)
            (keyNum key) = ⟨true, some s!"Week {w}",
              (st (keyNum key)).qualifiedEvent⟩ := by
          unfold stUpdate; rw [if_pos rfl]
        have hq1 : ((weeklySlotPhase dec q w rest
            (stUpdate st (keyNum key)
              ⟨true, some s!"Week {w}", (st (keyNum key)).qualifiedEvent⟩)
            (pc + 1)).1 (keyNum key)).isQualified = true := by
          apply wsp_monotone
          rw [hst1]
        rw [ih _ _ hndr]
        unfold newlyQualified
        rw [List.filter_cons]
        have hn0 : (st (keyNum key)).isQualified = false := by
          rcases hcond with ⟨hc1, _⟩
          cases hh : (st (keyNum key)).isQualified
          · rfl
          · exact absurd hh hc1
        simp only [hn0, hq1, Bool.not_false, Bool.true_and, if_pos]
        rw [List.length_cons]
        have hcong := newlyQualified_congr
          (stUpdate st (keyNum key)
            ⟨true, some s!"Week {w}", (st (keyNum key)).qualifiedEvent⟩)
          st
          ((weeklySlotPhase dec q w rest
            (stUpdate st (keyNum key)
              ⟨true, some s!"Week {w}", (st (keyNum key)).qualifiedEvent⟩)
            (pc + 1)).1)
          (rest.map keyNum)
          (by
            intro m hm
            unfold stUpdate
            rw [if_neg (by intro he; rw [he] at hm; exact hnotin hm)])
        unfold newlyQualified at hcong
        rw [← hcong]
        omega
      · rw [if_neg hcond]
        rw [ih _ _ hndr]
        unfold newlyQualified
        rw [List.filter_cons]
        have hskip : (!(st (keyNum key)).isQualified &&
            ((weeklySlotPhase dec q w rest st pc).1 (keyNum key)).isQualified)
            = false := by
          by_cases hq0 : (st (keyNum key)).isQualified = true
          · rw [hq0]; rfl
          · have hfr := wsp_frame dec q w rest st pc (keyNum key) hnotin
            rw [hfr]
            cases hh : (st (keyNum key)).isQualified
            · rfl
            · exact absurd hh hq0
        simp only [hskip, Bool.false_eq_true, if_false]
    · rw [if_neg hpc]
      show pc = pc + (newlyQualified st st (keyNum key :: rest.map keyNum)).length
      rw [newlyQualified_self]
      rfl

lemma wsp_pc_le (dec : Nat → Bool) (q : Int) (w : Nat) :
    ∀ (ranked : List (List Int)) (st : QState) (pc : Nat),
      ((weeklySlotPhase dec q w ranked st pc).2 : Int) ≤ max (pc : Int) q := by
  intro ranked
  induction ranked with
  | nil => intro st pc; exact le_max_left _ _
  | cons key rest ih =>
    intro st pc
    rw [weeklySlotPhase]
    by_cases hpc : (pc : Int) < q
    · rw [if_pos hpc]
      by_cases hcond : ¬((st (keyNum key)).isQualified = true) ∧
          ¬(dec (keyNum key) = true)
      · rw [if_pos hcond]
        refine le_trans (ih _ _) ?_
        have : ((pc : Int) + 1) ≤ q := hpc
        rw [max_le_iff]
        constructor
        · push_cast; omega
        · exact le_max_right _ _
      · rw [if_neg hcond]
        exact ih _ _
    · rw [if_neg hpc]
      exact le_max_left _ _

lemma weeklySlots2025_eval :
    season2025Constants.weeklySlots = [74, 67, 60, 42, 53] := by decide

/-- C2: for a single week-`W` run (`2 ≤ W ≤ 6`), the number of teams newly
qualified by the weekly fixed-slot phase never exceeds that week's quota
`weeklySlots()[W - 2]`, whatever the incoming slot counter `pc` (i.e. however
many teams auto-advancement already qualified) and incoming state. -/
theorem weeklySlotPhase_quota (w : Nat) (h2 : 2 ≤ w) (h6 : w ≤ 6)
    (dec : Nat → Bool) (ranked : List (List Int)) (st : QState) (pc : Nat)
    (q : Int)
    (hq : pyIndex season2025Constants.weeklySlots ((w : Int) - 2) = some q)
    (hnd : (ranked.map keyNum).Nodup) :
    ((newlyQualified st (weeklySlotPhase dec q w ranked st pc).1
      (ranked.map keyNum)).length : Int) ≤ q := by
  have hq0 : 0 ≤ q := by
    rw [weeklySlots2025_eval] at hq
    interval_cases w <;> simp [pyIndex] at hq <;> omega
  have hcount := wsp_count dec q w ranked st pc hnd
  have hle := wsp_pc_le dec q w ranked st pc
  rcases le_total (pc : Int) q with hcase | hcase
  · rw [max_eq_right hcase] at hle
    omega
  · rw [max_eq_left hcase] at hle
    omega

/-- Witness for C2 at week 2 (quota 74) with a one-team pool. -/
theorem weeklySlotPhase_quota_witness :
    ((newlyQualified (fun _ => ⟨false, none, none⟩)
      (weeklySlotPhase (fun _ => false) 74 2 [[1, 0, 0, 0, 0, 0, 0, 7]]
        (fun _ => ⟨false, none, none⟩) 0).1
      ([[1, 0, 0, 0, 0, 0, 0, 7]].map keyNum)).length : Int) ≤ 74 :=
  weeklySlotPhase_quota 2 (by decide) (by decide) (fun _ => false)
    [[1, 0, 0, 0, 0, 0, 0, 7]] (fun _ => ⟨false, none, none⟩) 0 74 (by decide)
    (by decide)

/-- C3 (amended): the refactored fixed-slot phase
(`services/season.py`) is total: it stops when the quota is met or the ranked
pool is exhausted.  The legacy phase (`Season.py`) equals it whenever the
quota is reached, and raises a lookup error (`KeyError`) exactly when the pool
is exhausted with the quota still unmet. -/
theorem weeklySlotPhaseLegacy_characterization (dec : Nat → Bool) (q : Int)
    (w : Nat) :
    ∀ (ranked : List (List Int)) (st : QState) (pc : Nat),
      weeklySlotPhaseLegacy dec q w ranked st pc =
        if ((weeklySlotPhase dec q w ranked st pc).2 : Int) < q then .error ()
        else .ok (weeklySlotPhase dec q w ranked st pc) := by
  intro ranked
  induction ranked with
  | nil => intro st pc; rfl
  | cons key rest ih =>
    intro st pc
    by_cases hpc : (pc : Int) < q
    · rw [weeklySlotPhaseLegacy, weeklySlotPhase, if_pos hpc, if_pos hpc]
      by_cases hcond : ¬((st (keyNum key)).isQualified = true) ∧
          ¬(dec (keyNum key) = true)
      · rw [if_pos hcond, if_pos hcond, ih]
      · rw [if_neg hcond, if_neg hcond, ih]
    · rw [weeklySlotPhaseLegacy, weeklySlotPhase, if_neg hpc, if_neg hpc,
        if_neg hpc]

/-- The all-qualified state used in the C3 counterexample. -/
def stQC3 : QState := fun _ => ⟨true, some "Pre-qualified", none⟩

/-- C3 (counterexample): at week 2's real quota (74), the legacy fixed-slot
loop of `Season.py` walks a pool whose only team is already qualified,
exhausts the pool with the quota unmet, and raises a lookup error instead of
terminating normally. -/
theorem weeklySlotPhaseLegacy_cex :
    pyIndex season2025Constants.weeklySlots 0 = some 74 ∧
    weeklySlotPhaseLegacy (fun _ => false) 74 2 [[1, 0, 0, 0, 0, 0, 0, 7]]
      stQC3 0 = .error () :=
  ⟨by decide, rfl⟩

/-! ## C6 — the 2026 backfill auto-advancement phase -/

/-- Specification-side description of which ranking entries the backfill loop
processes with `b` remaining slots: already-qualified teams are passed over;
every unqualified team (declined or not) consumes one slot. -/
def slotCandidates (st : QState) : Nat → List Nat → List Nat
  | _, [] => []
  | b, n :: rest =>
    if b = 0 then []
    else if (st n).isQualified then slotCandidates st b rest
    else n :: slotCandidates st (b - 1) rest

lemma slotCandidates_length (st : QState) :
    ∀ (b : Nat) (l : List Nat), (slotCandidates st b l).length ≤ b := by
  intro b l
  induction l generalizing b with
  | nil => simp [slotCandidates]
  | cons n rest ih =>
    rw [slotCandidates]
    by_cases hb : b = 0
    · simp [hb]
    · rw [if_neg hb]
      by_cases hq : (st n).isQualified
      · rw [if_pos hq]
        exact ih b
      · rw [if_neg hq, List.length_cons]
        have := ih (b - 1)
        omega

lemma slotCandidates_subset (st : QState) :
    ∀ (b : Nat) (l : List Nat) (m : Nat), m ∈ slotCandidates st b l → m ∈ l := by
  intro b l
  induction l generalizing b with
  | nil => intro m hm; simp [slotCandidates] at hm
  | cons n rest ih =>
    intro m hm
    rw [slotCandidates] at hm
    by_cases hb : b = 0
    · rw [if_pos hb] at hm
      simp at hm
    · rw [if_neg hb] at hm
      by_cases hq : (st n).isQualified
      · rw [if_pos hq] at hm
        exact List.mem_cons_of_mem n (ih b m hm)
      · rw [if_neg hq] at hm
        rcases List.mem_cons.1 hm with h | h
        · rw [h]; exact List.mem_cons_self _ _
        · exact List.mem_cons_of_mem n (ih (b - 1) m h)

lemma slotCandidates_congr (st1 st : QState) :
    ∀ (b : Nat) (l : List Nat), (∀ m ∈ l, st1 m = st m) →
      slotCandidates st1 b l = slotCandidates st b l := by
  intro b l
  induction l generalizing b with
  | nil => intro _; rfl
  | cons n rest ih =>
    intro h
    rw [slotCandidates, slotCandidates,
      h n (List.mem_cons_self n rest)]
    by_cases hb : b = 0
    · rw [if_pos hb, if_pos hb]
    · rw [if_neg hb, if_neg hb]
      by_cases hq : (st n).isQualified
      · rw [if_pos hq, if_pos hq, ih b fun m hm => h m (List.mem_cons_of_mem n hm)]
      · rw [if_neg hq, if_neg hq,
          ih (b - 1) fun m hm => h m (List.mem_cons_of_mem n hm)]

lemma backfill_go (dec : Nat → Bool) (evId : Nat) :
    ∀ (rankings : List Nat) (st : QState) (pc cnt : Nat), rankings.Nodup →
      ((backfillLoop dec evId rankings st pc cnt).2 =
        pc + ((slotCandidates st (3 - cnt) rankings).filter
          (fun n => !dec n)).length) ∧
      (∀ n, ((backfillLoop dec evId rankings st pc cnt).1 n).isQualified = true ↔
        ((st n).isQualified = true ∨
          n ∈ (slotCandidates st (3 - cnt) rankings).filter (fun n => !dec n))) := by
  intro rankings
  induction rankings with
  | nil =>
    intro st pc cnt _
    constructor
    · rfl
    · intro n
      simp [backfillLoop, slotCandidates]
  | cons m rest ih =>
    intro st pc cnt hnd
    have hmr : m ∉ rest := (List.nodup_cons.1 hnd).1
    have hndr : rest.Nodup := (List.nodup_cons.1 hnd).2
    rw [backfillLoop]
    by_cases hcnt : cnt < 3
    · have hb : ¬(3 - cnt = 0) := by omega
      rw [if_pos hcnt, slotCandidates, if_neg hb]
      by_cases hq : (st m).isQualified
      · rw [if_pos hq, if_pos hq]
        exact ih st pc cnt hndr
      · rw [if_neg hq, if_neg hq]
        have hsub : 3 - cnt - 1 = 3 - (cnt + 1) := by omega
        by_cases hdm : dec m
        · rw [if_pos hdm]
          have := ih st pc (cnt + 1) hndr
          rw [List.filter_cons]
          simp only [hdm, Bool.not_true, Bool.false_eq_true, if_false]
          rw [hsub]
          exact this
        · rw [if_neg hdm]
          have hst1 : ∀ x ∈ rest,
              (stUpdate st m ⟨true, some s!"Slot {cnt + 1}", some evId⟩) x = st x := by
            intro x hx
            unfold stUpdate
            rw [if_neg (by intro he; rw [he] at hx; exact hmr hx)]
          have hcand := slotCandidates_congr
            (stUpdate st m ⟨true, some s!"Slot {cnt + 1}", some evId⟩) st
            (3 - (cnt + 1)) rest hst1
          have := ih (stUpdate st m ⟨true, some s!"Slot {cnt + 1}", some evId⟩)
            (pc + 1) (cnt + 1) hndr
          rw [hcand] at this
          rw [List.filter_cons]
          simp only [hdm, Bool.not_false, if_pos]
          constructor
          · rw [this.1, List.length_cons, hsub]
            omega
          · intro n
            rw [(this.2 n), hsub]
            unfold stUpdate
            by_cases he : n = m
            · subst he
              rw [if_pos rfl]
              constructor
              · intro _
                right
                exact List.mem_cons_self _ _
              · intro _
                left
                rfl
            · rw [if_neg he]
              constructor
              · intro h
                rcases h with h | h
                · exact Or.inl h
                · exact Or.inr (List.mem_cons_of_mem _ h)
              · intro h
                rcases h with h | h
                · exact Or.inl h
                · rcases List.mem_cons.1 h with h2 | h2
                  · exact absurd h2 he
                  · exact Or.inr h2
    · have hb : 3 - cnt = 0 := by omega
      rw [if_neg hcnt, slotCandidates, if_pos hb]
      constructor
      · rfl
      · intro n
        simp

/-- C6 (amended): with backfill enabled, the loop for one event's ranking
passes over already-qualified teams without spending a slot, spends one of the
3 slots on **every** unqualified team it meets — declined or not — and newly
qualifies exactly the non-declined ones among those (at most 3) slot
consumers; hence 3 newly-qualified teams are reached only when the first 3
unqualified teams of the ranking are all non-declined. -/
theorem backfillLoop_spec (dec : Nat → Bool) (evId : Nat)
    (rankings : List Nat) (st : QState) (pc : Nat) (hnd : rankings.Nodup) :
    ((backfillLoop dec evId rankings st pc 0).2 =
      pc + ((slotCandidates st 3 rankings).filter (fun n => !dec n)).length) ∧
    (∀ n, ((backfillLoop dec evId rankings st pc 0).1 n).isQualified = true ↔
      ((st n).isQualified = true ∨
        n ∈ (slotCandidates st 3 rankings).filter (fun n => !dec n))) ∧
    (slotCandidates st 3 rankings).length ≤ 3 := by
  have h := backfill_go dec evId rankings st pc 0 hnd
  exact ⟨h.1, h.2, slotCandidates_length st 3 rankings⟩

/-- Declined-team predicate for the C6 counterexample: team 1 declined. -/
def decC6 : Nat → Bool := fun n => n == 1

/-- The all-unqualified state used in the C6 counterexample and witness. -/
def stC6 : QState := fun _ => ⟨false, none, none⟩

/-- C6 (counterexample): ranking `[1, 2, 3, 4]` with team 1 declined and all
four teams unqualified and eligible-by-rank: the loop stops after newly
qualifying only 2 teams — the declined team consumed one of the 3 slots — even
though 3 unqualified non-declined teams (2, 3, 4) were available. -/
theorem backfillLoop_declined_slot_cex :
    (backfillLoop decC6 10 [1, 2, 3, 4] stC6 0 0).2 = 2 ∧
    ((backfillLoop decC6 10 [1, 2, 3, 4] stC6 0 0).1 2).isQualified = true ∧
    ((backfillLoop decC6 10 [1, 2, 3, 4] stC6 0 0).1 3).isQualified = true ∧
    ((backfillLoop decC6 10 [1, 2, 3, 4] stC6 0 0).1 4).isQualified = false ∧
    decC6 1 = true ∧ decC6 2 = false ∧ decC6 3 = false ∧ decC6 4 = false ∧
    (stC6 1).isQualified = false ∧ (stC6 2).isQualified = false ∧
    (stC6 3).isQualified = false ∧ (stC6 4).isQualified = false := by
  refine ⟨by decide, by decide, by decide, by decide, by decide, by decide,
    by decide, by decide, by decide, by decide, by decide, by decide⟩

/-- Witness for C6's amended theorem on the counterexample ranking. -/
theorem backfillLoop_spec_witness :
    ((backfillLoop decC6 10 [1, 2, 3, 4] stC6 0 0).2 =
      0 + ((slotCandidates stC6 3 [1, 2, 3, 4]).filter (fun n => !decC6 n)).length) ∧
    (∀ n, ((backfillLoop decC6 10 [1, 2, 3, 4] stC6 0 0).1 n).isQualified = true ↔
      ((stC6 n).isQualified = true ∨
        n ∈ (slotCandidates stC6 3 [1, 2, 3, 4]).filter (fun n => !decC6 n))) ∧
    (slotCandidates stC6 3 [1, 2, 3, 4]).length ≤ 3 :=
  backfillLoop_spec decC6 10 [1, 2, 3, 4] stC6 0 (by decide)

/-! ## C7 — the regional pool sort -/

lemma singleton_lt_iff (x y : Int) : ([x] : List Int) < [y] ↔ x < y := by
  constructor
  · intro h
    cases h with
    | cons h => exact absurd h (by intro hh; cases hh)
    | rel h => exact h
  · intro h
    exact List.Lex.rel h

lemma cons_le_cons_iff (a : Int) (l l' : List Int) :
    a :: l ≤ a :: l' ↔ l ≤ l' := by
  constructor
  · intro h
    rcases lt_or_eq_of_le h with hlt | heq
    · have hx : List.Lex (· < ·) (a :: l) (a :: l') := hlt
      exact le_of_lt ((@List.Lex.cons_iff Int ((· < ·) : Int → Int → Prop) _ a l l').1 hx)
    · exact le_of_eq (by injection heq)
  · intro h
    exact List.cons_le_cons a h

lemma append_singleton_le (p : List Int) (x y : Int) :
    p ++ [y] ≤ p ++ [x] ↔ y ≤ x := by
  induction p with
  | nil =>
    show ([y] : List Int) ≤ [x] ↔ y ≤ x
    constructor
    · intro h
      by_contra hc
      exact not_lt.2 h ((singleton_lt_iff x y).2 (not_le.1 hc))
    · intro h
      by_contra hc
      exact absurd ((singleton_lt_iff x y).1 (not_le.1 hc)) (not_lt.2 h)
  | cons a p ih =>
    show a :: (p ++ [y]) ≤ a :: (p ++ [x]) ↔ y ≤ x
    rw [cons_le_cons_iff]
    exact ih

lemma take7_append_last (k : List Int) (h : k.length = 8) :
    k = k.take 7 ++ [k.getD 7 0] := by
  rcases k with _ | ⟨a0, k⟩
  · simp at h
  rcases k with _ | ⟨a1, k⟩
  · simp at h
  rcases k with _ | ⟨a2, k⟩
  · simp at h
  rcases k with _ | ⟨a3, k⟩
  · simp at h
  rcases k with _ | ⟨a4, k⟩
  · simp at h
  rcases k with _ | ⟨a5, k⟩
  · simp at h
  rcases k with _ | ⟨a6, k⟩
  · simp at h
  rcases k with _ | ⟨a7, k⟩
  · simp at h
  rcases k with _ | ⟨a8, k⟩
  · rfl
  · simp at h

lemma buildSortPool_length (env : Env) (w : Nat) :
    ∀ k ∈ buildSortPool env w, k.length = 8 := by
  intro k hk
  rcases List.mem_filterMap.1 hk with ⟨td, _, htd⟩
  by_cases hc : td.districtCode = none ∧
      (get_regional_points env.adjustments td w).toList ≠ [0, 0, 0, 0, 0, 0, 0]
  · rw [if_pos hc] at htd
    cases htd
    rfl
  · rw [if_neg hc] at htd
    exact absurd htd (by intro hh; cases hh)

/-- C7: the pool sort of `regional_pool_2025` yields a list that is descending
in the lexicographic order of the 8-element keys (7 point components then the
team number); re-sorting it changes nothing (determinism); and two ranked
entries with identical 7-component point prefixes are ordered with the larger
team number first, i.e. at the better (smaller) rank. -/
theorem regional_pool_sort_spec (env : Env) (w : Nat)
    (hnd : ((buildSortPool env w).map fun k => k.getD 7 0).Nodup) :
    List.Sorted listGe (rankedPool env w) ∧
    sortPoolDesc (rankedPool env w) = rankedPool env w ∧
    ∀ i j : Fin (rankedPool env w).length, i < j →
      ((rankedPool env w).get i).take 7 = ((rankedPool env w).get j).take 7 →
      ((rankedPool env w).get j).getD 7 0 < ((rankedPool env w).get i).getD 7 0 := by
  have hsorted : List.Sorted listGe (rankedPool env w) :=
    List.sorted_insertionSort listGe (buildSortPool env w)
  have hperm : List.Perm (rankedPool env w) (buildSortPool env w) :=
    List.perm_insertionSort listGe (buildSortPool env w)
  refine ⟨hsorted, hsorted.insertionSort_eq, ?_⟩
  intro i j hij htake
  have hgi : (rankedPool env w).get i ∈ buildSortPool env w :=
    hperm.mem_iff.1 (List.get_mem _ _ _)
  have hgj : (rankedPool env w).get j ∈ buildSortPool env w :=
    hperm.mem_iff.1 (List.get_mem _ _ _)
  have hli := buildSortPool_length env w _ hgi
  have hlj := buildSortPool_length env w _ hgj
  have hrel : listGe ((rankedPool env w).get i) ((rankedPool env w).get j) :=
    hsorted.rel_get_of_lt hij
  have hle : ((rankedPool env w).get j).getD 7 0 ≤
      ((rankedPool env w).get i).getD 7 0 := by
    have hi8 := take7_append_last _ hli
    have hj8 := take7_append_last _ hlj
    have hrel2 : (rankedPool env w).get j ≤ (rankedPool env w).get i := hrel
    rw [hi8, hj8, htake] at hrel2
    exact (append_singleton_le _ _ _).1 hrel2
  have hnd2 : ((rankedPool env w).map fun k => k.getD 7 0).Nodup :=
    (hperm.map fun k => k.getD 7 0).nodup_iff.2 hnd
  have hp : ((rankedPool env w).get i).getD 7 0 ≠
      ((rankedPool env w).get j).getD 7 0 := by
    have h0 := (List.pairwise_iff_get.1 hnd2)
      ⟨i.val, by rw [List.length_map]; exact i.isLt⟩
      ⟨j.val, by rw [List.length_map]; exact j.isLt⟩ hij
    simpa [List.get_eq_getElem, List.getElem_map] using h0
  exact lt_of_le_of_ne hle fun he => hp he.symm

/-- The two-team environment (equal point tuples, numbers 5 and 9) used in the
C7 witness. -/
def envC7 : Env :=
  ⟨2025, true,
    [⟨5, none, [(1, ⟨7, [], 17, ⟨100, 10, 9, 8, 50, 40, 30⟩⟩)]⟩,
     ⟨9, none, [(1, ⟨7, [], 17, ⟨100, 10, 9, 8, 50, 40, 30⟩⟩)]⟩],
    fun _ => [], fun _ => none⟩

/-- Witness for C7 on a two-team pool with identical point tuples. -/
theorem regional_pool_sort_spec_witness :
    List.Sorted listGe (rankedPool envC7 2) ∧
    sortPoolDesc (rankedPool envC7 2) = rankedPool envC7 2 ∧
    ∀ i j : Fin (rankedPool envC7 2).length, i < j →
      ((rankedPool envC7 2).get i).take 7 = ((rankedPool envC7 2).get j).take 7 →
      ((rankedPool envC7 2).get j).getD 7 0 < ((rankedPool envC7 2).get i).getD 7 0 :=
  regional_pool_sort_spec envC7 2 (by decide)

/-! ## C1 — qualification monotonicity -/

lemma stUpdate_qual_mono (st : QState) (n0 : Nat) (q : QualState)
    (hq : q.isQualified = true) (n : Nat) (h : (st n).isQualified = true) :
    ((stUpdate st n0 q) n).isQualified = true := by
  unfold stUpdate
  by_cases he : n = n0
  · rw [if_pos he]; exact hq
  · rw [if_neg he]; exact h

lemma phase2025_mono (env : Env) (w : Nat) :
    ∀ (ranked : List (List Int)) (st : QState) (pc : Nat) (r : QState × Nat),
      phase2025 env w ranked st pc = .ok r →
      ∀ n, (st n).isQualified = true → (r.1 n).isQualified = true := by
  intro ranked
  induction ranked with
  | nil =>
    intro st pc r h n hn
    rw [phase2025] at h
    injection h with h
    rw [← h]
    exact hn
  | cons key rest ih =>
    intro st pc r h n hn
    rw [phase2025] at h
    split at h
    · exact Except.noConfusion h
    · split at h
      · exact ih _ _ r h n (stUpdate_qual_mono st _ _ rfl n hn)
      · exact ih _ _ r h n hn

lemma backfillLoop_mono (dec : Nat → Bool) (evId : Nat) :
    ∀ (rankings : List Nat) (st : QState) (pc cnt : Nat) (n : Nat),
      (st n).isQualified = true →
      ((backfillLoop dec evId rankings st pc cnt).1 n).isQualified = true := by
  intro rankings
  induction rankings with
  | nil => intro st pc cnt n hn; exact hn
  | cons m rest ih =>
    intro st pc cnt n hn
    rw [backfillLoop]
    by_cases hcnt : cnt < 3
    · rw [if_pos hcnt]
      by_cases hq : (st m).isQualified
      · rw [if_pos hq]
        exact ih _ _ _ n hn
      · rw [if_neg hq]
        by_cases hd : dec m
        · rw [if_pos hd]
          exact ih _ _ _ n hn
        · rw [if_neg hd]
          exact ih _ _ _ n (stUpdate_qual_mono st _ _ rfl n hn)
    · rw [if_neg hcnt]
      exact hn

lemma noBackfill3_mono (dec : Nat → Bool) (evId : Nat) (rankings : List Nat) :
    ∀ (rs : List Nat) (st : QState) (pc : Nat) (r : QState × Nat),
      noBackfill3 dec evId rankings rs st pc = .ok r →
      ∀ n, (st n).isQualified = true → (r.1 n).isQualified = true := by
  intro rs
  induction rs with
  | nil =>
    intro st pc r h n hn
    rw [noBackfill3] at h
    injection h with h
    rw [← h]
    exact hn
  | cons rk rs ih =>
    intro st pc r h n hn
    rw [noBackfill3] at h
    split at h
    · exact Except.noConfusion h
    · split at h
      · exact ih _ _ r h n (stUpdate_qual_mono st _ _ rfl n hn)
      · exact ih _ _ r h n hn

lemma phase2026Events_mono (env : Env) :
    ∀ (events : List (Nat × List (Nat × RP))) (st : QState) (pc : Nat)
      (r : QState × Nat),
      phase2026Events env events st pc = .ok r →
      ∀ n, (st n).isQualified = true → (r.1 n).isQualified = true := by
  intro events
  induction events with
  | nil =>
    intro st pc r h n hn
    rw [phase2026Events] at h
    injection h with h
    rw [← h]
    exact hn
  | cons ev rest ih =>
    intro st pc r h n hn
    rw [phase2026Events] at h
    by_cases hbf : env.allowBackfillIn2026
    · rw [if_pos hbf] at h
      refine ih _ _ r h n ?_
      exact backfillLoop_mono (declOf env) ev.1 _ st pc 0 n hn
    · rw [if_neg hbf] at h
      split at h
      · exact Except.noConfusion h
      · next st1 pc1 heq =>
          refine ih _ _ r h n ?_
          exact noBackfill3_mono (declOf env) ev.1 _ [1, 2, 3] st pc (st1, pc1) heq n hn

lemma allocPhases_mono (env : Env) (w : Nat) (ranked : List (List Int))
    (st : QState) (r : QState × Nat) (h : allocPhases env w ranked st = .ok r) :
    ∀ n, (st n).isQualified = true → (r.1 n).isQualified = true := by
  intro n hn
  rw [allocPhases] at h
  by_cases h25 : env.useSeason = 2025
  · rw [if_pos h25] at h
    exact phase2025_mono env w ranked st 0 r h n hn
  · rw [if_neg h25] at h
    by_cases h26 : env.useSeason = 2026
    · rw [if_pos h26] at h
      exact phase2026Events_mono env _ st 0 r h n hn
    · rw [if_neg h26] at h
      injection h with h
      rw [← h]
      exact hn

lemma weekBody_mono (env : Env) (w : Nat) (st : QState)
    (r : QState × List PoolEntry) (h : weekBody env w st = .ok r) :
    ∀ n, (st n).isQualified = true → (r.1 n).isQualified = true := by
  intro n hn
  rw [weekBody] at h
  split at h
  · exact Except.noConfusion h
  · next st2 pc heq =>
      split at h
      · exact Except.noConfusion h
      · next quota heq2 =>
          injection h with h
          rw [← h]
          exact wsp_monotone (declOf env) quota w (rankedPool env w) st2 pc n
            (allocPhases_mono env w (rankedPool env w) st (st2, pc) heq n hn)

lemma weekBody_guard_mono (env : Env) (w : Nat) (st : QState)
    (r : QState × List PoolEntry)
    (h : (if env.useSeason < 2025 then .ok (st, []) else weekBody env w st) = .ok r) :
    ∀ n, (st n).isQualified = true → (r.1 n).isQualified = true := by
  intro n hn
  by_cases hus : env.useSeason < 2025
  · rw [if_pos hus] at h
    injection h with h
    rw [← h]
    exact hn
  · rw [if_neg hus] at h
    exact weekBody_mono env w st r h n hn

lemma regional_pool_2025_mono :
    ∀ (w : Nat) (env : Env) (st : QState) (r : QState × List PoolEntry),
      regional_pool_2025 env w st = .ok r →
      ∀ n, (st n).isQualified = true → (r.1 n).isQualified = true := by
  intro w
  induction w using Nat.strong_induction_on with
  | _ w ih =>
    intro env st r h n hn
    rcases w with _ | _ | _ | m
    · rw [show regional_pool_2025 env 0 st =
        (if env.useSeason < 2025 then .ok (st, []) else weekBody env 0 st) from rfl] at h
      exact weekBody_guard_mono env 0 st r h n hn
    · rw [show regional_pool_2025 env 1 st =
        (if env.useSeason < 2025 then .ok (st, []) else weekBody env 1 st) from rfl] at h
      exact weekBody_guard_mono env 1 st r h n hn
    · rw [show regional_pool_2025 env 2 st =
        (if env.useSeason < 2025 then .ok (st, []) else weekBody env 2 st) from rfl] at h
      exact weekBody_guard_mono env 2 st r h n hn
    · rw [show regional_pool_2025 env (m + 3) st =
        (if env.useSeason < 2025 then .ok (st, [])
         else match regional_pool_2025 env (m + 2) st with
          | .error e => .error e
          | .ok (st1, _) => weekBody env (m + 3) st1) from rfl] at h
      by_cases hus : env.useSeason < 2025
      · rw [if_pos hus] at h
        injection h with h
        rw [← h]
        exact hn
      · rw [if_neg hus] at h
        split at h
        · exact Except.noConfusion h
        · next st1 out1 heq =>
            have hst1 := ih (m + 2) (by omega) env st (st1, out1) heq n hn
            exact weekBody_mono env (m + 3) st1 r h n hst1

lemma emit_mem_isQualified (dec : Nat → Bool) (ranked : List (List Int))
    (st : QState) (e : PoolEntry) (he : e ∈ emit dec ranked st) :
    e.isQualified = (st e.teamNumber).isQualified := by
  unfold emit at he
  rcases List.mem_map.1 he with ⟨p, _, hp⟩
  rw [← hp]

lemma weekBody_out (env : Env) (w : Nat) (st : QState)
    (r : QState × List PoolEntry) (h : weekBody env w st = .ok r) :
    ∀ e ∈ r.2, e.isQualified = (r.1 e.teamNumber).isQualified := by
  intro e he
  rw [weekBody] at h
  split at h
  · exact Except.noConfusion h
  · next st2 pc heq =>
      split at h
      · exact Except.noConfusion h
      · next quota heq2 =>
          injection h with h
          rw [← h] at he ⊢
          exact emit_mem_isQualified (declOf env) (rankedPool env w) _ e he

lemma regional_pool_2025_out (w : Nat) (env : Env) (st : QState)
    (r : QState × List PoolEntry) (h : regional_pool_2025 env w st = .ok r) :
    ∀ e ∈ r.2, e.isQualified = (r.1 e.teamNumber).isQualified := by
  intro e he
  rcases w with _ | _ | _ | m
  · rw [show regional_pool_2025 env 0 st =
      (if env.useSeason < 2025 then .ok (st, []) else weekBody env 0 st) from rfl] at h
    by_cases hus : env.useSeason < 2025
    · rw [if_pos hus] at h
      injection h with h
      rw [← h] at he
      exact absurd he (by intro hh; cases hh)
    · rw [if_neg hus] at h
      exact weekBody_out env 0 st r h e he
  · rw [show regional_pool_2025 env 1 st =
      (if env.useSeason < 2025 then .ok (st, []) else weekBody env 1 st) from rfl] at h
    by_cases hus : env.useSeason < 2025
    · rw [if_pos hus] at h
      injection h with h
      rw [← h] at he
      exact absurd he (by intro hh; cases hh)
    · rw [if_neg hus] at h
      exact weekBody_out env 1 st r h e he
  · rw [show regional_pool_2025 env 2 st =
      (if env.useSeason < 2025 then .ok (st, []) else weekBody env 2 st) from rfl] at h
    by_cases hus : env.useSeason < 2025
    · rw [if_pos hus] at h
      injection h with h
      rw [← h] at he
      exact absurd he (by intro hh; cases hh)
    · rw [if_neg hus] at h
      exact weekBody_out env 2 st r h e he
  · rw [show regional_pool_2025 env (m + 3) st =
      (if env.useSeason < 2025 then .ok (st, [])
       else match regional_pool_2025 env (m + 2) st with
        | .error e => .error e
        | .ok (st1, _) => weekBody env (m + 3) st1) from rfl] at h
    by_cases hus : env.useSeason < 2025
    · rw [if_pos hus] at h
      injection h with h
      rw [← h] at he
      exact absurd he (by intro hh; cases hh)
    · rw [if_neg hus] at h
      split at h
      · exact Except.noConfusion h
      · next st1 out1 heq =>
          exact weekBody_out env (m + 3) st1 r h e he

/-- C1: across any sequence of `regional_pool_2025` invocations threading the
shared state (each week-`w ≥ 3` call also recomputes week `w - 1` first), the
`isQualified` flag is monotonic — no allocator operation resets it — so once a
team is qualified at the end of some week's invocation it stays qualified in
the final state and is reported qualified in every later week's output. -/
theorem runWeeks_qual_monotonic (env : Env) :
    ∀ (ws : List Nat) (st : QState) (r : QState × List (List PoolEntry)),
      runWeeks env ws st = .ok r →
      (∀ n, (st n).isQualified = true → (r.1 n).isQualified = true) ∧
      (∀ o ∈ r.2, ∀ e ∈ o, e.isQualified = true →
        (r.1 e.teamNumber).isQualified = true) ∧
      (∀ n, (st n).isQualified = true → ∀ o ∈ r.2, ∀ e ∈ o,
        e.teamNumber = n → e.isQualified = true) ∧
      (∀ i j oi oj, i < j → r.2.get? i = some oi → r.2.get? j = some oj →
        ∀ e ∈ oi, e.isQualified = true → ∀ e2 ∈ oj,
          e2.teamNumber = e.teamNumber → e2.isQualified = true) := by
  intro ws
  induction ws with
  | nil =>
    intro st r h
    rw [runWeeks] at h
    injection h with h
    refine ⟨?_, ?_, ?_, ?_⟩
    · intro n hn
      rw [← h]
      exact hn
    · intro o ho
      rw [← h] at ho
      exact absurd ho (by intro hh; cases hh)
    · intro n _ o ho
      rw [← h] at ho
      exact absurd ho (by intro hh; cases hh)
    · intro i j oi oj _ hgi _
      rw [← h] at hgi
      exact absurd hgi (by intro hh; cases i <;> cases hh)
  | cons w ws ih =>
    intro st r h
    rw [runWeeks] at h
    split at h
    · exact Except.noConfusion h
    · next st1 out heq1 =>
        split at h
        · exact Except.noConfusion h
        · next st2 outs heq2 =>
            injection h with h
            obtain ⟨ih1, ih2, ih3, ih4⟩ := ih st1 (st2, outs) heq2
            have hmono := regional_pool_2025_mono w env st (st1, out) heq1
            have hout := regional_pool_2025_out w env st (st1, out) heq1
            rw [← h]
            refine ⟨?_, ?_, ?_, ?_⟩
            · intro n hn
              exact ih1 n (hmono n hn)
            · intro o ho e hee hq
              rcases List.mem_cons.1 ho with rfl | ho2
              · have := hout e hee
                rw [hq] at this
                exact ih1 e.teamNumber this.symm
              · exact ih2 o ho2 e hee hq
            · intro n hn o ho e hee het
              rcases List.mem_cons.1 ho with rfl | ho2
              · have := hout e hee
                rw [het] at this
                rw [this]
                exact hmono n hn
              · exact ih3 n (hmono n hn) o ho2 e hee het
            · intro i j oi oj hij hgi hgj e hee hq e2 he2 ht
              rcases j with _ | j2
              · omega
              · rw [List.get?_cons_succ] at hgj
                have hojmem : oj ∈ outs := List.get?_mem hgj
                rcases i with _ | i2
                · rw [List.get?_cons_zero] at hgi
                  injection hgi with hgi
                  rw [← hgi] at hee
                  have hst1 : (st1 e.teamNumber).isQualified = true := by
                    have := hout e hee
                    rw [hq] at this
                    exact this.symm
                  exact ih3 e.teamNumber hst1 oj hojmem e2 he2 ht
                · rw [List.get?_cons_succ] at hgi
                  exact ih4 i2 j2 oi oj (by omega) hgi hgj e hee hq e2 he2 ht

/-- The two-team 2025 environment (team 3132 pre-qualified, team 5 not) used
in the C1 witness. -/
def envC1 : Env :=
  ⟨2025, true,
    [⟨5, none, [(1, ⟨7, [], 17, ⟨100, 10, 9, 8, 50, 40, 30⟩⟩)]⟩,
     ⟨3132, none, [(1, ⟨8, [], 17, ⟨90, 5, 4, 3, 40, 30, 20⟩⟩)]⟩],
    fun _ => [], fun _ => none⟩

/-- The result of running weeks 2 and 3 of `envC1` from the initial state. -/
def rC1 : QState × List (List PoolEntry) :=
  match runWeeks envC1 [2, 3] (initState season2025Constants) with
  | .ok r => r
  | .error _ => (initState season2025Constants, [])

/-- Witness for C1: pre-qualified team 3132 is qualified in the initial state
and still qualified after running weeks 2 and 3. -/
theorem runWeeks_qual_monotonic_witness :
    ((initState season2025Constants) 3132).isQualified = true ∧
    (rC1.1 3132).isQualified = true :=
  ⟨by decide,
    (runWeeks_qual_monotonic envC1 [2, 3] (initState season2025Constants) rC1
      rfl).1 3132 (by decide)⟩

end FrcCalc
